import Mathlib

/-!
Verification of the envelope stream dumper (dump-stream.py).

The script reads newline-delimited JSON lines, parses each line, unwraps an
optional outer "result" field, filters by content topic, reshapes the
"message" field (base64 decoding to hex, truncation, omission) and prints
the resulting JSON document.

Embedding conventions:
  - Python strings are lists of characters (`Str`), bytes are lists of
    naturals (`Bytes`).
  - JSON values are the inductive `JVal`; a Python dict is an ordered
    association list (`Dict`).  The dict operations `dget`, `dset`, `dpop`
    mirror `d.get(k)`, `d[k] = v` (update in place when present, append
    when absent, as insertion-ordered Python dicts do) and `d.pop(k, None)`.
  - The external library functions `json.loads` and `base64.b64decode` are
    parameters of the embedding (`loads`, `b64`): the script only
    distinguishes success from raised failure, which `Option` captures.
  - Serialization (`json.dumps`) is modelled at the document level: an
    emitted record is the final dict, compared field for field.
-/

abbrev Str : Type := List Char

abbrev Bytes : Type := List Nat

/-- JSON values, as produced by a JSON parser. -/
inductive JVal : Type where
  | null : JVal
  | bool (b : Bool) : JVal
  | int (n : Int) : JVal
  | str (s : Str) : JVal
  | arr (xs : List JVal) : JVal
  | obj (fields : List (Str × JVal)) : JVal

/-- A Python dict holding JSON data: an insertion-ordered association list. -/
abbrev Dict : Type := List (Str × JVal)

/-- `d.get(k)`: value at the first occurrence of the key, else `none`. -/
def dget : Dict → Str → Option JVal
  | [], _ => none
  | (k', v) :: rest, k => if k' = k then some v else dget rest k

/-- `d[k] = v`: update the key in place when present, append when absent. -/
def dset : Dict → Str → JVal → Dict
  | [], k, v => [(k, v)]
  | (k', v') :: rest, k, v =>
      if k' = k then (k, v) :: rest else (k', v') :: dset rest k v

/-- `d.pop(k, None)`: remove the key when present. -/
def dpop (d : Dict) (k : Str) : Dict :=
  d.filter (fun p => decide (p.1 ≠ k))

/-- Python truthiness of a JSON value (`bool(v)`). -/
def jtruthy : JVal → Bool
  | .null => false
  | .bool b => b
  | .int n => decide (n ≠ 0)
  | .str s => !s.isEmpty
  | .arr xs => !xs.isEmpty
  | .obj fs => !fs.isEmpty

/-- `needle in hay` on Python strings: contiguous substring test. -/
def strContains (hay needle : Str) : Bool := decide (needle <:+: hay)

/-- `t.startswith(p)` on Python strings. -/
def strStartsWith (t p : Str) : Bool := decide (p <+: t)

/--
`should_emit(topic, contains, prefix)` from dump-stream.py, for the annotated
type `Optional[str]`.  `if not topic` is true for `None` and for the empty
string, hence the extra empty-string case.
-/
def should_emit (topic : Option Str) (contains pfx : Str) : Bool :=
  match topic with
  | none => contains.isEmpty && pfx.isEmpty
  | some t =>
      if t.isEmpty then contains.isEmpty && pfx.isEmpty
      else if !contains.isEmpty && !(strContains t contains) then false
      else if !pfx.isEmpty && !(strStartsWith t pfx) then false
      else true

/-- Outcome of running `should_emit` on a dynamically typed topic value. -/
inductive EmitCheck : Type where
  | yes : EmitCheck
  | no : EmitCheck
  | crash : EmitCheck
deriving DecidableEq

/--
`should_emit` as actually reached from `format_envelope`, where the topic is
whatever JSON value sits under "contentTopic" (or is absent).  A falsy value
takes the no-topic branch; a truthy non-string value makes `contains in topic`
or `topic.startswith(prefix)` raise, which `crash` records.
-/
def should_emit_val (topic : Option JVal) (contains pfx : Str) : EmitCheck :=
  let truthy := match topic with
    | none => false
    | some v => jtruthy v
  if !truthy then
    if !contains.isEmpty || !pfx.isEmpty then .no else .yes
  else
    match topic with
    | some (.str t) =>
        if !contains.isEmpty && !(strContains t contains) then .no
        else if !pfx.isEmpty && !(strStartsWith t pfx) then .no
        else .yes
    | _ => if !contains.isEmpty || !pfx.isEmpty then .crash else .yes

/-- Padding added by `decode_message_bytes`: `"=" * ((4 - len(s) % 4) % 4)`. -/
def b64pad (m : Str) : Str :=
  m ++ List.replicate ((4 - m.length % 4) % 4) '='

/--
`decode_message_bytes` from dump-stream.py: pad, then call the library
decoder; a raised decoding failure is `none`.
-/
def decode_message_bytes (b64 : Str → Option Bytes) (m : Str) : Option Bytes :=
  b64 (b64pad m)

/-- Lowercase hex digit for a value below 16. -/
def hexDigit (n : Nat) : Char :=
  if n < 10 then Char.ofNat (48 + n) else Char.ofNat (87 + n)

/-- Two lowercase hex digits of one byte (`bytes.hex()` per byte). -/
def byteHex (b : Nat) : Str :=
  [hexDigit (b / 16 % 16), hexDigit (b % 16)]

/-- `raw.hex()`: lowercase hex of a byte string. -/
def bytesHex (bs : Bytes) : Str :=
  (bs.map byteHex).flatten

/-- Python slice `xs[:n]` with an integer bound (negative counts from the end). -/
def pySliceTo {α : Type} (xs : List α) (n : Int) : List α :=
  if 0 ≤ n then xs.take n.toNat else xs.take (xs.length - (-n).toNat)

/-- Decimal rendering of an integer, as an f-string renders a Python int. -/
def intRepr (n : Int) : Str :=
  if n < 0 then '-' :: Nat.toDigits 10 (-n).toNat else Nat.toDigits 10 n.toNat

def kContentTopic : Str := "contentTopic".data

def kMessage : Str := "message".data

def kResult : Str := "result".data

def kMBLen : Str := "messageBytesLen".data

def kMBHex : Str := "messageBytesHex".data

/--
The command line flags reaching the loop and the formatter.  `topic_start`
embeds the flag named topic hyphen prefix in the script; integer flags keep
the Python `int` type.
-/
structure Args : Type where
  raw : Bool
  pretty : Bool
  topic_contains : Str
  topic_start : Str
  max_messages : Int
  omit_message : Bool
  message_max : Int
  decode_message : Bool
  hex_max : Int

/-- Step 1 of the message transformer (lines 130 to 143 of the script). -/
def applyDecode (b64 : Str → Option Bytes) (args : Args) (m : Str)
    (output : Dict) : Dict :=
  if args.decode_message then
    match decode_message_bytes b64 m with
    | some raw =>
        let o := dset output kMBLen (.int raw.length)
        if args.hex_max = 0 ∨ (raw.length : Int) ≤ args.hex_max then
          dset o kMBHex (.str (bytesHex raw))
        else
          let clipped := pySliceTo raw args.hex_max
          dset o kMBHex (.str (bytesHex clipped ++ "...(+".data
            ++ intRepr ((raw.length : Int) - args.hex_max) ++ " bytes)".data))
    | none => dset (dset output kMBLen .null) kMBHex .null
  else output

/-- Step 2 of the message transformer (lines 144 to 146 of the script). -/
def applyTruncate (args : Args) (m : Str) (output : Dict) : Dict :=
  if args.message_max ≠ 0 ∧ args.message_max > 0 then
    if (m.length : Int) > args.message_max then
      dset output kMessage (.str (pySliceTo m args.message_max ++ "...".data))
    else output
  else output

/-- Step 3 of the message transformer (lines 147 to 151 of the script). -/
def applyOmit (args : Args) (output : Dict) : Dict :=
  if args.omit_message then dpop output kMessage else output

/-- Result of `format_envelope`: an uncaught exception, a topic-filter
rejection (`return None`), or an emitted document. -/
inductive FormatResult : Type where
  | crash : FormatResult
  | filtered : FormatResult
  | emit (d : Dict) : FormatResult

/--
`format_envelope(envelope, args)` at the document level.  A non-dict
envelope raises on the attribute access `envelope.get`.  `output =
dict(envelope)` is a copy, so the transformation steps run on the same
entries the envelope holds.
-/
def format_envelope (b64 : Str → Option Bytes) (args : Args)
    (envelope : JVal) : FormatResult :=
  match envelope with
  | .obj env =>
      match should_emit_val (dget env kContentTopic)
          args.topic_contains args.topic_start with
      | .crash => .crash
      | .no => .filtered
      | .yes =>
          match dget env kMessage with
          | some (.str m) =>
              .emit (applyOmit args (applyTruncate args m
                (applyDecode b64 args m env)))
          | _ => .emit (applyOmit args env)
  | _ => .crash

/-- One printed item: a raw line or a rendered document. -/
inductive OutItem : Type where
  | raw (l : Str) : OutItem
  | doc (d : Dict) : OutItem

/-- How the read loop ended. -/
inductive Stop : Type where
  | endOfStream : Stop
  | limit : Stop
  | crash : Stop
deriving DecidableEq

/-- Observable outcome of the read loop. -/
structure LoopResult : Type where
  stdout : List OutItem
  stderr : List Str
  count : Int
  stopped : Stop

/-- Per-line action of the loop body (lines 177 to 189 of the script). -/
inductive LineAct : Type where
  | out (items : List OutItem) : LineAct
  | toStderr (l : Str) : LineAct
  | crash : LineAct

/--
One iteration of the loop body before the counter update: raw mode prints
the line; a parse failure goes to stderr and `continue`s; a parsed payload
is unwrapped via `payload.get("result", payload)` (raising when the payload
is not a dict) and formatted.
-/
def processLine (loads : Str → Option JVal) (b64 : Str → Option Bytes)
    (args : Args) (line : Str) : LineAct :=
  if args.raw then .out [.raw line]
  else
    match loads line with
    | none => .toStderr line
    | some payload =>
        match payload with
        | .obj pf =>
            match format_envelope b64 args ((dget pf kResult).getD payload) with
            | .crash => .crash
            | .filtered => .out []
            | .emit d => .out [.doc d]
        | _ => .crash

/--
The read loop of `main` (lines 173 to 193 of the script) over a given list
of input lines, starting from a given counter value.  A parse failure skips
the counter update (the `continue` sits before `count += 1`); after any
other completed iteration the counter is incremented and the loop breaks
when `args.max_messages and count >= args.max_messages`.
-/
def runLoop (loads : Str → Option JVal) (b64 : Str → Option Bytes)
    (args : Args) : List Str → Int → LoopResult
  | [], c => ⟨[], [], c, .endOfStream⟩
  | line :: rest, c =>
      match processLine loads b64 args line with
      | .crash => ⟨[], [], c, .crash⟩
      | .toStderr l =>
          let r := runLoop loads b64 args rest c
          ⟨r.stdout, l :: r.stderr, r.count, r.stopped⟩
      | .out items =>
          if args.max_messages ≠ 0 ∧ args.max_messages ≤ c + 1 then
            ⟨items, [], c + 1, .limit⟩
          else
            let r := runLoop loads b64 args rest (c + 1)
            ⟨items ++ r.stdout, r.stderr, r.count, r.stopped⟩

/-- True when the loop body raises on this line (uncaught, loop dies). -/
def lineCrashes (loads : Str → Option JVal) (b64 : Str → Option Bytes)
    (args : Args) (line : Str) : Bool :=
  match processLine loads b64 args line with
  | .crash => true
  | _ => false

/-- True when the iteration for this line reaches the counter update. -/
def countsLine (loads : Str → Option JVal) (args : Args) (line : Str) : Bool :=
  args.raw || (loads line).isSome

/-!
Heap model of `format_envelope`, for the mutation claim.  Python dicts are
references into a heap; the heap is a list of dicts and an address is an
index.  `output = dict(envelope)` allocates a fresh dict at the end of the
heap and every statement `output[k] = v` or `output.pop(k, None)` is a store
at that fresh address.
-/

/-- `h[a][k] = v`: store into the dict at address `a`. -/
def hset (h : List Dict) (a : Nat) (k : Str) (v : JVal) : List Dict :=
  h.set a (dset (h.getD a []) k v)

/-- `h[a].pop(k, None)`: remove a key from the dict at address `a`. -/
def hpop (h : List Dict) (a : Nat) (k : Str) : List Dict :=
  h.set a (dpop (h.getD a []) k)

/-- Step 1 of the transformer as stores into the dict at address `a`. -/
def heapDecode (b64 : Str → Option Bytes) (args : Args) (m : Str)
    (h : List Dict) (a : Nat) : List Dict :=
  if args.decode_message then
    match decode_message_bytes b64 m with
    | some raw =>
        let h2 := hset h a kMBLen (.int raw.length)
        if args.hex_max = 0 ∨ (raw.length : Int) ≤ args.hex_max then
          hset h2 a kMBHex (.str (bytesHex raw))
        else
          let clipped := pySliceTo raw args.hex_max
          hset h2 a kMBHex (.str (bytesHex clipped ++ "...(+".data
            ++ intRepr ((raw.length : Int) - args.hex_max) ++ " bytes)".data))
    | none => hset (hset h a kMBLen .null) a kMBHex .null
  else h

/-- Step 2 of the transformer as stores into the dict at address `a`. -/
def heapTruncate (args : Args) (m : Str) (h : List Dict) (a : Nat) :
    List Dict :=
  if args.message_max ≠ 0 ∧ args.message_max > 0 then
    if (m.length : Int) > args.message_max then
      hset h a kMessage (.str (pySliceTo m args.message_max ++ "...".data))
    else h
  else h

/-- Step 3 of the transformer as stores into the dict at address `a`. -/
def heapOmit (args : Args) (h : List Dict) (a : Nat) : List Dict :=
  if args.omit_message then hpop h a kMessage else h

/--
`format_envelope` with its dict mutations made explicit against a heap:
Python dicts are references into a heap (a list of dicts, an address being
an index).  The envelope argument is the address `envAddr`; `output =
dict(envelope)` allocates a fresh copy at the end of the heap and every
mutating statement is a store at that fresh address.  The returned heap is
the state of every dict after the call; the result names the emitted
document.
-/
def format_envelope_heap (b64 : Str → Option Bytes) (args : Args)
    (heap : List Dict) (envAddr : Nat) : List Dict × FormatResult :=
  let env := heap.getD envAddr []
  match should_emit_val (dget env kContentTopic)
      args.topic_contains args.topic_start with
  | .crash => (heap, .crash)
  | .no => (heap, .filtered)
  | .yes =>
      let a := heap.length
      let h0 := heap ++ [env]
      match dget (h0.getD a []) kMessage with
      | some (.str m) =>
          let h3 := heapOmit args
            (heapTruncate args m (heapDecode b64 args m h0 a) a) a
          (h3, .emit (h3.getD a []))
      | _ =>
          let h3 := heapOmit args h0 a
          (h3, .emit (h3.getD a []))

/-! Association list lemmas. -/

theorem dget_dset_self (d : Dict) (k : Str) (v : JVal) :
    dget (dset d k v) k = some v := by
  induction d with
  | nil => simp [dset, dget]
  | cons p rest ih =>
      obtain ⟨k', v'⟩ := p
      by_cases h : k' = k <;> simp [dset, dget, h, ih]

theorem dget_dset_ne (d : Dict) (k k2 : Str) (v : JVal) (h : k2 ≠ k) :
    dget (dset d k v) k2 = dget d k2 := by
  induction d with
  | nil => simp only [dset, dget, if_neg (Ne.symm h)]
  | cons p rest ih =>
      obtain ⟨k', v'⟩ := p
      by_cases hk : k' = k
      · subst hk
        simp only [dset, if_pos rfl, dget, if_neg (Ne.symm h)]
      · simp only [dset, if_neg hk, dget, ih]

theorem dget_dpop_self (d : Dict) (k : Str) : dget (dpop d k) k = none := by
  induction d with
  | nil => simp [dpop, dget]
  | cons p rest ih =>
      obtain ⟨k', v'⟩ := p
      by_cases h : k' = k
      · subst h
        simpa [dpop, List.filter_cons, decide_not] using ih
      · simp only [dpop, List.filter_cons, decide_not] at ih ⊢
        simp [h, dget, ih]

theorem dget_dpop_ne (d : Dict) (k k2 : Str) (h : k2 ≠ k) :
    dget (dpop d k) k2 = dget d k2 := by
  induction d with
  | nil => simp [dpop]
  | cons p rest ih =>
      obtain ⟨k', v'⟩ := p
      simp only [dpop, List.filter_cons, decide_not] at ih ⊢
      by_cases hk : k' = k
      · subst hk
        simp [dget, ih, Ne.symm h]
      · simp [hk, dget, ih]

/-!  Claim C1: the topic filter predicate. -/

/--
The acceptance condition exactly as the spec words it: (topic present, or
both filters empty) and (contains filter empty or a substring of the topic)
and (prefix filter empty or the topic starts with it).
-/
def specShouldEmit (topic : Option Str) (contains pfx : Str) : Prop :=
  (topic.isSome = true ∨ (contains = [] ∧ pfx = [])) ∧
  (contains = [] ∨ ∃ t, topic = some t ∧ contains <:+: t) ∧
  (pfx = [] ∨ ∃ t, topic = some t ∧ pfx <+: t)

/--
C1: for every topic value (possibly absent), contains filter and prefix
filter, `should_emit` returns true iff (the topic is present, or both
filters are empty) and (the contains filter is empty or occurs as a
substring of the topic) and (the prefix filter is empty or the topic starts
with it); in particular, with no topic it returns true exactly when both
filters are empty.
-/
theorem should_emit_iff_spec (topic : Option Str) (contains pfx : Str) :
    should_emit topic contains pfx = true ↔ specShouldEmit topic contains pfx := by
  cases topic with
  | none =>
      simp only [should_emit, specShouldEmit, Bool.and_eq_true,
        List.isEmpty_iff, Option.isSome_none]
      constructor
      · rintro ⟨hc, hp⟩
        exact ⟨Or.inr ⟨hc, hp⟩, Or.inl hc, Or.inl hp⟩
      · rintro ⟨h1, h2, h3⟩
        constructor
        · rcases h2 with h | ⟨t, ht, _⟩
          · exact h
          · cases ht
        · rcases h3 with h | ⟨t, ht, _⟩
          · exact h
          · cases ht
  | some t =>
      by_cases ht : t = []
      · subst ht
        simp only [should_emit, specShouldEmit, List.isEmpty_nil, if_true,
          Bool.and_eq_true, List.isEmpty_iff, Option.isSome_some,
          Option.some.injEq]
        constructor
        · rintro ⟨hc, hp⟩
          exact ⟨Or.inl trivial, Or.inl hc, Or.inl hp⟩
        · rintro ⟨-, h2, h3⟩
          constructor
          · rcases h2 with h | ⟨t', rfl, hinf⟩
            · exact h
            · exact List.sublist_nil.mp hinf.sublist
          · rcases h3 with h | ⟨t', rfl, hpre⟩
            · exact h
            · exact List.sublist_nil.mp hpre.sublist
      · rcases List.exists_cons_of_ne_nil ht with ⟨a, t2, rfl⟩
        by_cases hc : contains = [] <;> by_cases hp : pfx = [] <;>
          by_cases hin : contains <:+: a :: t2 <;>
          by_cases hpre : pfx <+: a :: t2 <;>
          simp [should_emit, specShouldEmit, strContains, strStartsWith,
            hc, hp, hin, hpre, List.isEmpty_iff]

/-!  Claim C3: round trip with all message transformations inactive. -/

/--
C3: when decoding is disabled, omission is disabled, the message truncation
limit is 0, and the topic filters accept the envelope, the emitted document
is exactly the input envelope, field for field.
-/
theorem format_envelope_identity (b64 : Str → Option Bytes) (args : Args)
    (env : Dict)
    (hdec : args.decode_message = false)
    (homit : args.omit_message = false)
    (hmax : args.message_max = 0)
    (hyes : should_emit_val (dget env kContentTopic)
      args.topic_contains args.topic_start = .yes) :
    format_envelope b64 args (.obj env) = .emit env := by
  simp only [format_envelope]
  rw [hyes]
  cases hm : dget env kMessage with
  | none => simp [applyOmit, homit]
  | some v =>
      cases v <;>
        simp [applyOmit, applyTruncate, applyDecode, homit, hmax, hdec]

/-- Flags with every option off (production defaults except hex-max). -/
def argsPlain : Args := ⟨false, false, [], [], 0, false, 0, false, 256⟩

/-- A decoder standing in for the base64 library that always raises. -/
def b64Fail : Str → Option Bytes := fun _ => none

/-- The envelope of the end-to-end example in the spec. -/
def envFoo : Dict :=
  [(kContentTopic, .str "/xmtp/0/foo".data), (kMessage, .str "aGVsbG8=".data)]

/-- Witness for C3 on the end-to-end example envelope of the spec. -/
theorem format_envelope_identity_witness :
    should_emit_val (dget envFoo kContentTopic)
      argsPlain.topic_contains argsPlain.topic_start = .yes
    ∧ format_envelope b64Fail argsPlain (.obj envFoo) = .emit envFoo :=
  ⟨by decide, format_envelope_identity b64Fail argsPlain envFoo rfl rfl rfl
    (by decide)⟩

/-!  Field access through the transformer stages. -/

theorem dget_applyDecode_ne (b64 : Str → Option Bytes) (args : Args)
    (m : Str) (env : Dict) (k : Str) (h1 : k ≠ kMBLen) (h2 : k ≠ kMBHex) :
    dget (applyDecode b64 args m env) k = dget env k := by
  unfold applyDecode
  cases hd : args.decode_message with
  | false => simp
  | true =>
      simp only [if_true]
      cases decode_message_bytes b64 m with
      | none => rw [dget_dset_ne _ _ _ _ h2, dget_dset_ne _ _ _ _ h1]
      | some raw =>
          by_cases hh : args.hex_max = 0 ∨ (raw.length : Int) ≤ args.hex_max <;>
            simp only [hh, if_true, if_false] <;>
            rw [dget_dset_ne _ _ _ _ h2, dget_dset_ne _ _ _ _ h1]

theorem dget_applyTruncate_ne (args : Args) (m : Str) (env : Dict) (k : Str)
    (h : k ≠ kMessage) :
    dget (applyTruncate args m env) k = dget env k := by
  unfold applyTruncate
  split_ifs <;> first | rfl | rw [dget_dset_ne _ _ _ _ h]

theorem dget_applyOmit_ne (args : Args) (env : Dict) (k : Str)
    (h : k ≠ kMessage) :
    dget (applyOmit args env) k = dget env k := by
  unfold applyOmit
  split_ifs <;> first | rfl | rw [dget_dpop_ne _ _ _ h]

/-!  Claim C6: message truncation. -/

/--
C6: with truncation limit M greater than 0 and omission off, an emitted
envelope whose message is a string of length L keeps its message unchanged
when L is at most M, and otherwise carries the first M characters followed
by a literal ellipsis, for a total length of M plus 3.
-/
theorem format_envelope_truncation (b64 : Str → Option Bytes) (args : Args)
    (env : Dict) (m : Str)
    (homit : args.omit_message = false)
    (hpos : args.message_max > 0)
    (hmsg : dget env kMessage = some (.str m))
    (hyes : should_emit_val (dget env kContentTopic)
      args.topic_contains args.topic_start = .yes) :
    ∃ d, format_envelope b64 args (.obj env) = .emit d ∧
      dget d kMessage = some (.str
        (if (m.length : Int) > args.message_max
         then m.take args.message_max.toNat ++ "...".data else m)) ∧
      ((m.length : Int) > args.message_max →
        (m.take args.message_max.toNat ++ "...".data).length
          = args.message_max.toNat + 3) := by
  simp only [format_envelope]
  rw [hyes, hmsg]
  have hA : args.message_max ≠ 0 ∧ args.message_max > 0 := ⟨ne_of_gt hpos, hpos⟩
  refine ⟨_, rfl, ?_, ?_⟩
  · simp only [applyOmit, homit, Bool.false_eq_true, if_false]
    by_cases hL : (m.length : Int) > args.message_max
    · simp only [applyTruncate, if_pos hA, if_pos hL, dget_dset_self]
      simp [pySliceTo, le_of_lt hpos]
    · simp only [applyTruncate, if_pos hA, if_neg hL]
      rw [dget_applyDecode_ne _ _ _ _ _ (by decide) (by decide), hmsg]
  · intro hL
    have h3 : ("...".data : Str).length = 3 := rfl
    rw [List.length_append, List.length_take, h3]
    omega

/-- Flags with message truncation at 5 and everything else off. -/
def argsTrunc : Args := ⟨false, false, [], [], 0, false, 5, false, 256⟩

/-- An envelope whose message is base64 text of length 10. -/
def envTen : Dict := [(kMessage, .str "ABCDEFGHIJ".data)]

/-- Witness for C6 at limit 5 and message length 10. -/
theorem format_envelope_truncation_witness :
    ∃ d, format_envelope b64Fail argsTrunc (.obj envTen) = .emit d ∧
      dget d kMessage = some (.str
        (if ((("ABCDEFGHIJ".data : Str)).length : Int) > argsTrunc.message_max
         then ("ABCDEFGHIJ".data : Str).take argsTrunc.message_max.toNat
           ++ "...".data
         else "ABCDEFGHIJ".data)) ∧
      ((("ABCDEFGHIJ".data : Str).length : Int) > argsTrunc.message_max →
        (("ABCDEFGHIJ".data : Str).take argsTrunc.message_max.toNat
          ++ "...".data).length = argsTrunc.message_max.toNat + 3) :=
  format_envelope_truncation b64Fail argsTrunc envTen ("ABCDEFGHIJ".data)
    rfl (by decide) (by rfl) (by rfl)

/-!  Claim C4: base64 decoding with hex truncation. -/

/--
C4: with decoding enabled and a nonnegative hex limit, an emitted envelope
whose message decodes to N bytes carries messageBytesLen equal to N and
messageBytesHex equal to the full hex encoding when the limit is 0 or N is
within it, and otherwise the hex of the first hex-max bytes followed by the
suffix listing the remaining byte count.
-/
theorem format_envelope_decode_hex (b64 : Str → Option Bytes) (args : Args)
    (env : Dict) (m : Str) (raw : Bytes)
    (hdec : args.decode_message = true)
    (hhex : 0 ≤ args.hex_max)
    (hmsg : dget env kMessage = some (.str m))
    (hraw : decode_message_bytes b64 m = some raw)
    (hyes : should_emit_val (dget env kContentTopic)
      args.topic_contains args.topic_start = .yes) :
    ∃ d, format_envelope b64 args (.obj env) = .emit d ∧
      dget d kMBLen = some (.int raw.length) ∧
      dget d kMBHex = some (.str
        (if args.hex_max = 0 ∨ (raw.length : Int) ≤ args.hex_max
         then bytesHex raw
         else bytesHex (raw.take args.hex_max.toNat) ++ "...(+".data
           ++ intRepr ((raw.length : Int) - args.hex_max)
           ++ " bytes)".data)) := by
  simp only [format_envelope]
  rw [hyes, hmsg]
  refine ⟨_, rfl, ?_, ?_⟩
  · rw [dget_applyOmit_ne _ _ _ (by decide),
      dget_applyTruncate_ne _ _ _ _ (by decide)]
    unfold applyDecode
    simp only [hdec, hraw, if_true]
    by_cases hh : args.hex_max = 0 ∨ (raw.length : Int) ≤ args.hex_max
    · simp only [if_pos hh]
      rw [dget_dset_ne _ _ _ _ (by decide), dget_dset_self]
    · simp only [if_neg hh]
      rw [dget_dset_ne _ _ _ _ (by decide), dget_dset_self]
  · rw [dget_applyOmit_ne _ _ _ (by decide),
      dget_applyTruncate_ne _ _ _ _ (by decide)]
    unfold applyDecode
    simp only [hdec, hraw, if_true]
    by_cases hh : args.hex_max = 0 ∨ (raw.length : Int) ≤ args.hex_max
    · simp only [if_pos hh, dget_dset_self]
    · simp only [if_neg hh, dget_dset_self]
      simp [pySliceTo, hhex]

/-- Flags enabling decode at the default hex limit of 256. -/
def argsDecode : Args := ⟨false, false, [], [], 0, false, 0, true, 256⟩

/-- A decoder standing in for the base64 library returning 300 zero bytes. -/
def b64Zeros : Str → Option Bytes := fun _ => some (List.replicate 300 0)

/-- An envelope holding only a base64 message text. -/
def envMsg : Dict := [(kMessage, .str "AAAA".data)]

/-- Witness for C4: 300 decoded bytes against the limit 256. -/
theorem format_envelope_decode_hex_witness :
    ∃ d, format_envelope b64Zeros argsDecode (.obj envMsg) = .emit d ∧
      dget d kMBLen = some (.int (List.replicate 300 0 : Bytes).length) ∧
      dget d kMBHex = some (.str
        (if argsDecode.hex_max = 0
            ∨ ((List.replicate 300 0 : Bytes).length : Int) ≤ argsDecode.hex_max
         then bytesHex (List.replicate 300 0)
         else bytesHex ((List.replicate 300 0 : Bytes).take
             argsDecode.hex_max.toNat) ++ "...(+".data
           ++ intRepr (((List.replicate 300 0 : Bytes).length : Int)
             - argsDecode.hex_max)
           ++ " bytes)".data)) :=
  format_envelope_decode_hex b64Zeros argsDecode envMsg ("AAAA".data)
    (List.replicate 300 0) rfl (by decide) rfl rfl rfl

/-!  Claim C5: decode reads the original text, omission runs last. -/

/-- The length field that step 1 derives from a decode attempt. -/
def lenField : Option Bytes → JVal
  | some raw => .int raw.length
  | none => .null

/-- The hex field that step 1 derives from a decode attempt. -/
def hexField (hm : Int) : Option Bytes → JVal
  | some raw =>
      if hm = 0 ∨ (raw.length : Int) ≤ hm then .str (bytesHex raw)
      else .str (bytesHex (pySliceTo raw hm) ++ "...(+".data
        ++ intRepr ((raw.length : Int) - hm) ++ " bytes)".data)
  | none => .null

/--
C5: with decoding, truncation and omission all active on a string message,
the emitted document carries length and hex fields computed by decoding the
original untruncated base64 text, and no message key.
-/
theorem format_envelope_decode_before_omit (b64 : Str → Option Bytes)
    (args : Args) (env : Dict) (m : Str)
    (hdec : args.decode_message = true)
    (_hmm : args.message_max > 0)
    (homit : args.omit_message = true)
    (hmsg : dget env kMessage = some (.str m))
    (hyes : should_emit_val (dget env kContentTopic)
      args.topic_contains args.topic_start = .yes) :
    ∃ d, format_envelope b64 args (.obj env) = .emit d ∧
      dget d kMessage = none ∧
      dget d kMBLen = some (lenField (decode_message_bytes b64 m)) ∧
      dget d kMBHex = some (hexField args.hex_max
        (decode_message_bytes b64 m)) := by
  simp only [format_envelope]
  rw [hyes, hmsg]
  refine ⟨_, rfl, ?_, ?_, ?_⟩
  · simp only [applyOmit, homit, if_true]
    exact dget_dpop_self _ _
  · simp only [applyOmit, homit, if_true]
    rw [dget_dpop_ne _ _ _ (by decide),
      dget_applyTruncate_ne _ _ _ _ (by decide)]
    unfold applyDecode
    simp only [hdec, if_true]
    cases hr : decode_message_bytes b64 m with
    | none =>
        rw [dget_dset_ne _ _ _ _ (by decide), dget_dset_self]
        rfl
    | some raw =>
        by_cases hh : args.hex_max = 0 ∨ (raw.length : Int) ≤ args.hex_max <;>
          [simp only [if_pos hh]; simp only [if_neg hh]] <;>
          rw [dget_dset_ne _ _ _ _ (by decide), dget_dset_self] <;>
          rfl
  · simp only [applyOmit, homit, if_true]
    rw [dget_dpop_ne _ _ _ (by decide),
      dget_applyTruncate_ne _ _ _ _ (by decide)]
    unfold applyDecode
    simp only [hdec, if_true]
    cases hr : decode_message_bytes b64 m with
    | none =>
        rw [dget_dset_self]
        rfl
    | some raw =>
        by_cases hh : args.hex_max = 0 ∨ (raw.length : Int) ≤ args.hex_max
    
        · simp only [if_pos hh, dget_dset_self, hexField]
        · simp only [if_neg hh, dget_dset_self, hexField]

/-- Flags with decoding, truncation at 1 and omission all active. -/
def argsAll : Args := ⟨false, false, [], [], 0, true, 1, true, 256⟩

/-- A decoder standing in for the base64 library returning two bytes. -/
def b64Two : Str → Option Bytes := fun _ => some [171, 205]

/-- Witness for C5 with every message transformation active. -/
theorem format_envelope_decode_before_omit_witness :
    ∃ d, format_envelope b64Two argsAll (.obj envMsg) = .emit d ∧
      dget d kMessage = none ∧
      dget d kMBLen = some (lenField (decode_message_bytes b64Two
        ("AAAA".data))) ∧
      dget d kMBHex = some (hexField argsAll.hex_max
        (decode_message_bytes b64Two ("AAAA".data))) :=
  format_envelope_decode_before_omit b64Two argsAll envMsg ("AAAA".data)
    rfl (by decide) rfl rfl rfl

/-!  Claim C7: tolerant base64 decoding. -/

/--
C7: `decode_message_bytes` always hands the library decoder the input text
padded with equals signs up to the next multiple of 4; and when the decoder
fails, the record is still emitted, with both derived fields set to null.
-/
theorem decode_message_bytes_tolerant (b64 : Str → Option Bytes) (m : Str) :
    (decode_message_bytes b64 m
        = b64 (m ++ List.replicate ((4 - m.length % 4) % 4) '=')
      ∧ (b64pad m).length % 4 = 0
      ∧ (b64pad m).length = ((m.length + 3) / 4) * 4)
    ∧ (∀ (args : Args) (env : Dict), args.decode_message = true →
        dget env kMessage = some (.str m) →
        decode_message_bytes b64 m = none →
        should_emit_val (dget env kContentTopic)
          args.topic_contains args.topic_start = .yes →
        ∃ d, format_envelope b64 args (.obj env) = .emit d ∧
          dget d kMBLen = some .null ∧ dget d kMBHex = some .null) := by
  constructor
  · refine ⟨rfl, ?_, ?_⟩
    · simp only [b64pad, List.length_append, List.length_replicate]
      omega
    · simp only [b64pad, List.length_append, List.length_replicate]
      omega
  · intro args env hdec hmsg hfail hyes
    simp only [format_envelope]
    rw [hyes, hmsg]
    refine ⟨_, rfl, ?_, ?_⟩
    · rw [dget_applyOmit_ne _ _ _ (by decide),
        dget_applyTruncate_ne _ _ _ _ (by decide)]
      unfold applyDecode
      simp only [hdec, hfail, if_true]
      rw [dget_dset_ne _ _ _ _ (by decide), dget_dset_self]
    · rw [dget_applyOmit_ne _ _ _ (by decide),
        dget_applyTruncate_ne _ _ _ _ (by decide)]
      unfold applyDecode
      simp only [hdec, hfail, if_true]
      rw [dget_dset_self]

/-- Witness for C7: a decoder that always fails, with decoding enabled. -/
theorem decode_message_bytes_tolerant_witness :
    (decode_message_bytes b64Fail ("AAAA".data)
        = b64Fail ("AAAA".data ++ List.replicate
          ((4 - ("AAAA".data : Str).length % 4) % 4) '=')
      ∧ (b64pad ("AAAA".data)).length % 4 = 0
      ∧ (b64pad ("AAAA".data)).length
          = ((("AAAA".data : Str).length + 3) / 4) * 4)
    ∧ (∃ d, format_envelope b64Fail argsDecode (.obj envMsg) = .emit d ∧
        dget d kMBLen = some .null ∧ dget d kMBHex = some .null) :=
  ⟨(decode_message_bytes_tolerant b64Fail ("AAAA".data)).1,
    (decode_message_bytes_tolerant b64Fail ("AAAA".data)).2 argsDecode envMsg
      rfl rfl rfl rfl⟩

/-!  Claim C8: per-line parse failures are recoverable. -/

/--
C8: in non-raw mode a line the parser rejects is written to stderr, puts
nothing on stdout, and the loop continues with the remaining lines exactly
as if the bad line were not there.
-/
theorem runLoop_parse_failure (loads : Str → Option JVal)
    (b64 : Str → Option Bytes) (args : Args) (line : Str)
    (rest : List Str) (c : Int)
    (hraw : args.raw = false)
    (hfail : loads line = none) :
    runLoop loads b64 args (line :: rest) c
      = ⟨(runLoop loads b64 args rest c).stdout,
         line :: (runLoop loads b64 args rest c).stderr,
         (runLoop loads b64 args rest c).count,
         (runLoop loads b64 args rest c).stopped⟩ := by
  have hp : processLine loads b64 args line = .toStderr line := by
    simp [processLine, hraw, hfail]
  simp [runLoop, hp]

/-- A parser standing in for json.loads that always fails. -/
def loadsNone : Str → Option JVal := fun _ => none

/-- Witness for C8: one bad line ahead of an empty remainder. -/
theorem runLoop_parse_failure_witness :
    runLoop loadsNone b64Fail argsPlain [['x']] 0
      = ⟨(runLoop loadsNone b64Fail argsPlain [] 0).stdout,
         ['x'] :: (runLoop loadsNone b64Fail argsPlain [] 0).stderr,
         (runLoop loadsNone b64Fail argsPlain [] 0).count,
         (runLoop loadsNone b64Fail argsPlain [] 0).stopped⟩ :=
  runLoop_parse_failure loadsNone b64Fail argsPlain ['x'] [] 0 rfl rfl

/-!  Claim C2: the processed-record counter. -/

/-- Flags with a max-message limit of 1 and raw mode off. -/
def argsMax1 : Args := ⟨false, false, [], [], 1, false, 0, false, 256⟩

/--
C2 counterexample: one malformed line under a limit of 1.  The line is read
and handled (it appears on stderr), yet the counter stays 0 and the loop
ends by stream end: the parse-failure branch `continue`s before the
`count += 1` statement, so malformed lines are never counted and the limit
the claim predicts is not reached.
-/
theorem runLoop_count_counterexample :
    (runLoop loadsNone b64Fail argsMax1 [['x']] 0).stderr = [['x']]
    ∧ (runLoop loadsNone b64Fail argsMax1 [['x']] 0).count = 0
    ∧ (runLoop loadsNone b64Fail argsMax1 [['x']] 0).count ≠ 0 + 1
    ∧ (runLoop loadsNone b64Fail argsMax1 [['x']] 0).stopped ≠ Stop.limit :=
  ⟨rfl, rfl, by decide, by decide⟩

/-- An iteration that prints (or emits nothing after formatting) counts. -/
theorem countsLine_of_out (loads : Str → Option JVal)
    (b64 : Str → Option Bytes) (args : Args) (line : Str)
    (items : List OutItem)
    (hp : processLine loads b64 args line = .out items) :
    countsLine loads args line = true := by
  unfold processLine at hp
  unfold countsLine
  cases hraw : args.raw with
  | true => simp [hraw]
  | false =>
      rw [hraw] at hp
      simp only [Bool.false_eq_true, if_false] at hp
      cases hl : loads line with
      | none => rw [hl] at hp; cases hp
      | some p => simp [hraw, hl]

/-- An iteration that hits the parse-failure branch does not count. -/
theorem not_countsLine_of_toStderr (loads : Str → Option JVal)
    (b64 : Str → Option Bytes) (args : Args) (line l : Str)
    (hp : processLine loads b64 args line = .toStderr l) :
    countsLine loads args line = false := by
  unfold countsLine
  cases hraw : args.raw with
  | true =>
      unfold processLine at hp
      rw [hraw] at hp
      simp at hp
  | false =>
      cases hl : loads line with
      | none => simp [hl]
      | some p =>
          exfalso
          unfold processLine at hp
          rw [hraw, hl] at hp
          simp only [Bool.false_eq_true, if_false] at hp
          cases p <;> dsimp only at hp
          case obj pf =>
            cases hf : format_envelope b64 args
                ((dget pf kResult).getD (JVal.obj pf)) <;>
              rw [hf] at hp <;> dsimp only at hp <;>
              exact LineAct.noConfusion hp
          all_goals exact LineAct.noConfusion hp

/--
Counting law of the loop for a positive limit: starting below the limit,
the final counter is the number of counted lines capped at the limit, and
the loop stops by limit exactly when enough lines count.
-/
theorem runLoop_count_pos (loads : Str → Option JVal)
    (b64 : Str → Option Bytes) (args : Args)
    (hmax : 0 < args.max_messages) (lines : List Str) :
    ∀ c : Int, c < args.max_messages →
      (lines.all fun l => !lineCrashes loads b64 args l) = true →
      (runLoop loads b64 args lines c).count
          = min args.max_messages
            (c + ((lines.filter (countsLine loads args)).length : Int))
        ∧ ((runLoop loads b64 args lines c).stopped = .limit
            ↔ args.max_messages
              ≤ c + ((lines.filter (countsLine loads args)).length : Int)) := by
  induction lines with
  | nil =>
      intro c hc _
      refine ⟨?_, ?_⟩
      · simp only [runLoop, List.filter_nil, List.length_nil]
        push_cast
        omega
      · simp only [runLoop, List.filter_nil, List.length_nil]
        constructor
        · intro h
          exact Stop.noConfusion h
        · intro h
          exfalso
          push_cast at h
          omega
  | cons line rest ih =>
      intro c hc hok
      rw [List.all_cons, Bool.and_eq_true] at hok
      obtain ⟨hok1, hokr⟩ := hok
      cases hp : processLine loads b64 args line with
      | crash =>
          exfalso
          unfold lineCrashes at hok1
          rw [hp] at hok1
          simp at hok1
      | toStderr l =>
          have hcl := not_countsLine_of_toStderr loads b64 args line l hp
          have hrec := ih c hc hokr
          simp only [runLoop, hp, List.filter_cons, hcl, if_false]
          exact hrec
      | out items =>
          have hcl := countsLine_of_out loads b64 args line items hp
          simp only [runLoop, hp, List.filter_cons, hcl, if_true,
            List.length_cons]
          by_cases hbreak : args.max_messages ≠ 0 ∧ args.max_messages ≤ c + 1
          · rw [if_pos hbreak]
            refine ⟨?_, ?_⟩
            · push_cast
              omega
            · refine iff_of_true rfl ?_
              push_cast
              omega
          · rw [if_neg hbreak]
            have hc1 : c + 1 < args.max_messages := by omega
            have hrec := ih (c + 1) hc1 hokr
            refine ⟨?_, ?_⟩
            · rw [hrec.1]
              push_cast
              omega
            · rw [hrec.2]
              push_cast
              constructor <;> intro <;> omega

/--
Counting law of the loop for limit 0: every counted line increments the
counter and the loop only ends with the stream.
-/
theorem runLoop_count_zero (loads : Str → Option JVal)
    (b64 : Str → Option Bytes) (args : Args)
    (hmax : args.max_messages = 0) (lines : List Str) :
    ∀ c : Int,
      (lines.all fun l => !lineCrashes loads b64 args l) = true →
      (runLoop loads b64 args lines c).count
          = c + ((lines.filter (countsLine loads args)).length : Int)
        ∧ (runLoop loads b64 args lines c).stopped = .endOfStream := by
  induction lines with
  | nil =>
      intro c _
      refine ⟨?_, rfl⟩
      simp only [runLoop, List.filter_nil, List.length_nil]
      push_cast
      omega
  | cons line rest ih =>
      intro c hok
      rw [List.all_cons, Bool.and_eq_true] at hok
      obtain ⟨hok1, hokr⟩ := hok
      cases hp : processLine loads b64 args line with
      | crash =>
          exfalso
          unfold lineCrashes at hok1
          rw [hp] at hok1
          simp at hok1
      | toStderr l =>
          have hcl := not_countsLine_of_toStderr loads b64 args line l hp
          have hrec := ih c hokr
          simp only [runLoop, hp, List.filter_cons, hcl, if_false]
          exact hrec
      | out items =>
          have hcl := countsLine_of_out loads b64 args line items hp
          have hbreak : ¬(args.max_messages ≠ 0 ∧ args.max_messages ≤ c + 1) := by
            simp [hmax]
          simp only [runLoop, hp, List.filter_cons, hcl, if_true,
            List.length_cons, if_neg hbreak]
          have hrec := ih (c + 1) hokr
          refine ⟨?_, hrec.2⟩
          rw [hrec.1]
          push_cast
          omega

/--
C2 amended: the counter is incremented after every raw-mode line and after
every line that parses as JSON, whether emitted or filtered out by topic,
but a line that fails to parse skips the increment; with a limit greater
than 0 the loop stops by limit exactly when the counted lines reach the
limit (the final counter is the counted lines capped at the limit), and a
limit of 0 never stops the loop.
-/
theorem runLoop_count_law (loads : Str → Option JVal)
    (b64 : Str → Option Bytes) (args : Args) (lines : List Str)
    (hok : (lines.all fun l => !lineCrashes loads b64 args l) = true) :
    (0 < args.max_messages →
      (runLoop loads b64 args lines 0).count
          = min args.max_messages
            (((lines.filter (countsLine loads args)).length : Int))
        ∧ ((runLoop loads b64 args lines 0).stopped = .limit
            ↔ args.max_messages
              ≤ ((lines.filter (countsLine loads args)).length : Int)))
    ∧ (args.max_messages = 0 →
      (runLoop loads b64 args lines 0).count
          = ((lines.filter (countsLine loads args)).length : Int)
        ∧ (runLoop loads b64 args lines 0).stopped = .endOfStream) := by
  constructor
  · intro hmax
    have h := runLoop_count_pos loads b64 args hmax lines 0 hmax hok
    simpa using h
  · intro hmax
    have h := runLoop_count_zero loads b64 args hmax lines 0 hok
    simpa using h

/-- A parser standing in for json.loads accepting only the line a. -/
def loadsA : Str → Option JVal :=
  fun l => if l = ['a'] then some (.obj []) else none

/-- Flags with a max-message limit of 2 and raw mode off. -/
def argsMax2 : Args := ⟨false, false, [], [], 2, false, 0, false, 256⟩

/-- Input lines for the C2 witness: parsed, malformed, parsed. -/
def linesW : List Str := [['a'], ['b'], ['a']]

/-- Witness for the amended C2 on two parsed lines and one malformed one. -/
theorem runLoop_count_law_witness :
    (0 < argsMax2.max_messages →
      (runLoop loadsA b64Fail argsMax2 linesW 0).count
          = min argsMax2.max_messages
            (((linesW.filter (countsLine loadsA argsMax2)).length : Int))
        ∧ ((runLoop loadsA b64Fail argsMax2 linesW 0).stopped = .limit
            ↔ argsMax2.max_messages
              ≤ ((linesW.filter (countsLine loadsA argsMax2)).length : Int)))
    ∧ (argsMax2.max_messages = 0 →
      (runLoop loadsA b64Fail argsMax2 linesW 0).count
          = ((linesW.filter (countsLine loadsA argsMax2)).length : Int)
        ∧ (runLoop loadsA b64Fail argsMax2 linesW 0).stopped = .endOfStream) :=
  runLoop_count_law loadsA b64Fail argsMax2 linesW (by rfl)

/-!  Claim C9: pass-through of unrelated fields. -/

/-- An input envelope that already carries a messageBytesLen field. -/
def envLen99 : Dict :=
  [(kContentTopic, .str "t".data), (kMessage, .str "AA".data),
   (kMBLen, .int 99)]

/-- The document the formatter emits for `envLen99` under `argsDecode`. -/
def dLen99 : Dict :=
  [(kContentTopic, .str "t".data), (kMessage, .str "AA".data),
   (kMBLen, .int 2), (kMBHex, .str "abcd".data)]

/--
C9 counterexample: with decoding enabled, an emitted envelope that already
carried a field named messageBytesLen (not one of the contentTopic and
message fields the claim sets aside) has that field overwritten with the
decoded length instead of passed through with its input value.
-/
theorem format_envelope_passthrough_counterexample :
    format_envelope b64Two argsDecode (.obj envLen99) = .emit dLen99
    ∧ dget envLen99 kMBLen = some (.int 99)
    ∧ dget dLen99 kMBLen = some (.int 2)
    ∧ dget dLen99 kMBLen ≠ dget envLen99 kMBLen := by
  refine ⟨rfl, rfl, rfl, ?_⟩
  intro h
  rw [show dget dLen99 kMBLen = some (.int 2) from rfl,
    show dget envLen99 kMBLen = some (.int 99) from rfl] at h
  have h2 := Option.some.inj h
  cases h2

/--
C9 amended: every field of an emitted envelope other than message,
messageBytesLen and messageBytesHex is passed through to the output with
exactly its input value (contentTopic, which the claim already set aside,
is never modified either).
-/
theorem format_envelope_passthrough (b64 : Str → Option Bytes) (args : Args)
    (env d : Dict) (k : Str)
    (hemit : format_envelope b64 args (.obj env) = .emit d)
    (h1 : k ≠ kMessage) (h2 : k ≠ kMBLen) (h3 : k ≠ kMBHex) :
    dget d k = dget env k := by
  simp only [format_envelope] at hemit
  cases hse : should_emit_val (dget env kContentTopic)
      args.topic_contains args.topic_start <;> rw [hse] at hemit
  case crash => exact FormatResult.noConfusion hemit
  case no => exact FormatResult.noConfusion hemit
  case yes =>
      cases hm : dget env kMessage with
      | none =>
          rw [hm] at hemit
          dsimp only at hemit
          injection hemit with hd
          rw [← hd, dget_applyOmit_ne _ _ _ h1]
      | some v =>
          rw [hm] at hemit
          cases v <;> dsimp only at hemit <;> injection hemit with hd <;>
            rw [← hd]
          case str m =>
            rw [dget_applyOmit_ne _ _ _ h1, dget_applyTruncate_ne _ _ _ _ h1,
              dget_applyDecode_ne _ _ _ _ _ h2 h3]
          all_goals rw [dget_applyOmit_ne _ _ _ h1]

/-- An envelope with an unrelated extra field. -/
def envExtra : Dict :=
  [(kContentTopic, .str "t".data), (kMessage, .str "AA".data),
   ("foo".data, .str "bar".data)]

/-- The document emitted for `envExtra` under `argsDecode`. -/
def dExtra : Dict :=
  [(kContentTopic, .str "t".data), (kMessage, .str "AA".data),
   ("foo".data, .str "bar".data), (kMBLen, .int 2),
   (kMBHex, .str "abcd".data)]

/-- Witness for the amended C9 at the extra field. -/
theorem format_envelope_passthrough_witness :
    dget dExtra ("foo".data) = dget envExtra ("foo".data) :=
  format_envelope_passthrough b64Two argsDecode envExtra dExtra ("foo".data)
    (by rfl) (by decide) (by decide) (by decide)

/-!  Claim C10: the input dict is never mutated. -/

theorem heapDecode_frame (b64 : Str → Option Bytes) (args : Args) (m : Str)
    (h : List Dict) (a i : Nat) (hia : a ≠ i) :
    (heapDecode b64 args m h a)[i]? = h[i]? := by
  unfold heapDecode
  repeat' split
  all_goals
    try simp only [hset]
    repeat rw [List.getElem?_set_ne hia]

theorem heapTruncate_frame (args : Args) (m : Str) (h : List Dict)
    (a i : Nat) (hia : a ≠ i) :
    (heapTruncate args m h a)[i]? = h[i]? := by
  unfold heapTruncate
  repeat' split
  all_goals
    try simp only [hset]
    repeat rw [List.getElem?_set_ne hia]

theorem heapOmit_frame (args : Args) (h : List Dict) (a i : Nat)
    (hia : a ≠ i) :
    (heapOmit args h a)[i]? = h[i]? := by
  unfold heapOmit
  split
  · simp only [hpop]
    rw [List.getElem?_set_ne hia]
  · rfl

/--
C10: `format_envelope` never mutates a dict it was given: every dict
already on the heap before the call, in particular the envelope argument,
holds exactly the same entries afterwards; all stores hit the fresh copy.
-/
theorem format_envelope_heap_frame (b64 : Str → Option Bytes) (args : Args)
    (heap : List Dict) (envAddr i : Nat) (hi : i < heap.length) :
    ((format_envelope_heap b64 args heap envAddr).1)[i]? = heap[i]? := by
  have hne : heap.length ≠ i := (Nat.ne_of_lt hi).symm
  have happ : (heap ++ [heap.getD envAddr []])[i]? = heap[i]? := by
    rw [List.getElem?_append]
    exact if_pos hi
  unfold format_envelope_heap
  dsimp only
  split
  · rfl
  · rfl
  · split
    all_goals
      dsimp only
      rw [heapOmit_frame _ _ _ _ hne]
      try rw [heapTruncate_frame _ _ _ _ _ hne,
        heapDecode_frame _ _ _ _ _ _ hne]
      exact happ

/-! The heap model runs the same computation as the pure formatter. -/

theorem hset_getD_self (h : List Dict) (a : Nat) (k : Str) (v : JVal)
    (ha : a < h.length) :
    (hset h a k v).getD a [] = dset (h.getD a []) k v := by
  simp [hset, List.getD_eq_getElem?_getD, List.getElem?_set, ha]

theorem hpop_getD_self (h : List Dict) (a : Nat) (k : Str)
    (ha : a < h.length) :
    (hpop h a k).getD a [] = dpop (h.getD a []) k := by
  simp [hpop, List.getD_eq_getElem?_getD, List.getElem?_set, ha]

theorem hset_length (h : List Dict) (a : Nat) (k : Str) (v : JVal) :
    (hset h a k v).length = h.length := by
  simp [hset]

theorem hpop_length (h : List Dict) (a : Nat) (k : Str) :
    (hpop h a k).length = h.length := by
  simp [hpop]

theorem append_getD_self (h : List Dict) (env : Dict) :
    (h ++ [env]).getD h.length [] = env := by
  simp [List.getD_eq_getElem?_getD, List.getElem?_append]

theorem heapDecode_getD (b64 : Str → Option Bytes) (args : Args) (m : Str)
    (h : List Dict) (a : Nat) (ha : a < h.length) :
    (heapDecode b64 args m h a).getD a []
      = applyDecode b64 args m (h.getD a []) := by
  unfold heapDecode applyDecode
  by_cases hd : args.decode_message = true
  · simp only [hd, if_true]
    cases hr : decode_message_bytes b64 m with
    | none =>
        rw [hset_getD_self _ _ _ _ (by rw [hset_length]; exact ha),
          hset_getD_self _ _ _ _ ha]
    | some raw =>
        dsimp only
        by_cases hx : args.hex_max = 0 ∨ (raw.length : Int) ≤ args.hex_max
    
        · simp only [if_pos hx]
          rw [hset_getD_self _ _ _ _ (by rw [hset_length]; exact ha),
            hset_getD_self _ _ _ _ ha]
        · simp only [if_neg hx]
          rw [hset_getD_self _ _ _ _ (by rw [hset_length]; exact ha),
            hset_getD_self _ _ _ _ ha]
  · simp only [if_neg hd]

theorem heapDecode_length (b64 : Str → Option Bytes) (args : Args) (m : Str)
    (h : List Dict) (a : Nat) :
    (heapDecode b64 args m h a).length = h.length := by
  unfold heapDecode
  by_cases hd : args.decode_message = true
  · simp only [hd, if_true]
    cases decode_message_bytes b64 m with
    | none => rw [hset_length, hset_length]
    | some raw =>
        dsimp only
        by_cases hx : args.hex_max = 0 ∨ (raw.length : Int) ≤ args.hex_max
    
        · simp only [if_pos hx]
          rw [hset_length, hset_length]
        · simp only [if_neg hx]
          rw [hset_length, hset_length]
  · simp only [if_neg hd]

theorem heapTruncate_getD (args : Args) (m : Str) (h : List Dict) (a : Nat)
    (ha : a < h.length) :
    (heapTruncate args m h a).getD a []
      = applyTruncate args m (h.getD a []) := by
  unfold heapTruncate applyTruncate
  by_cases h1 : args.message_max ≠ 0 ∧ args.message_max > 0
  · simp only [if_pos h1]
    by_cases h2 : (m.length : Int) > args.message_max
    · simp only [if_pos h2]
      exact hset_getD_self _ _ _ _ ha
    · simp only [if_neg h2]
  · simp only [if_neg h1]

theorem heapTruncate_length (args : Args) (m : Str) (h : List Dict)
    (a : Nat) :
    (heapTruncate args m h a).length = h.length := by
  unfold heapTruncate
  by_cases h1 : args.message_max ≠ 0 ∧ args.message_max > 0
  · simp only [if_pos h1]
    by_cases h2 : (m.length : Int) > args.message_max
    · simp only [if_pos h2]
      rw [hset_length]
    · simp only [if_neg h2]
  · simp only [if_neg h1]

theorem heapOmit_getD (args : Args) (h : List Dict) (a : Nat)
    (ha : a < h.length) :
    (heapOmit args h a).getD a [] = applyOmit args (h.getD a []) := by
  unfold heapOmit applyOmit
  by_cases ho : args.omit_message = true
  · simp only [ho, if_true]
    exact hpop_getD_self _ _ _ ha
  · simp only [if_neg ho]

/--
Cross check: the heap model returns exactly the result of the pure
formatter on the dict at the envelope address.
-/
theorem format_envelope_heap_agrees (b64 : Str → Option Bytes) (args : Args)
    (heap : List Dict) (envAddr : Nat) :
    (format_envelope_heap b64 args heap envAddr).2
      = format_envelope b64 args (.obj (heap.getD envAddr [])) := by
  unfold format_envelope_heap format_envelope
  dsimp only
  cases hse : should_emit_val (dget (heap.getD envAddr []) kContentTopic)
      args.topic_contains args.topic_start
  case crash => rfl
  case no => rfl
  case yes =>
      have ha : heap.length < (heap ++ [heap.getD envAddr []]).length := by
        simp
      dsimp only
      rw [append_getD_self]
      cases hm : dget (heap.getD envAddr []) kMessage with
      | none =>
          dsimp only
          rw [heapOmit_getD _ _ _ ha, append_getD_self]
      | some v =>
          cases v <;> dsimp only <;>
            try rw [heapOmit_getD _ _ _ ha, append_getD_self]
          case str m =>
            rw [heapOmit_getD _ _ _ (by
                rw [heapTruncate_length, heapDecode_length]
                exact ha),
              heapTruncate_getD _ _ _ _ (by
                rw [heapDecode_length]
                exact ha),
              heapDecode_getD _ _ _ _ _ ha, append_getD_self]

/-- A one-dict heap for the C10 witness. -/
def heapW : List Dict := [envMsg]

/-- Witness for C10: the envelope dict at address 0 is untouched even with
every message transformation active. -/
theorem format_envelope_heap_frame_witness :
    0 < heapW.length ∧
    ((format_envelope_heap b64Two argsAll heapW 0).1)[0]? = heapW[0]? :=
  ⟨by decide, format_envelope_heap_frame b64Two argsAll heapW 0 0 (by decide)⟩
